import Mathlib

/-!
Verification of the market-data hub in
`backend/app/services/market_ws_service.py` and the websocket entry point in
`backend/app/main.py`.

Modelling conventions:
* Python `float` prices/quantities are modelled as `ℚ` (exact arithmetic;
  NaN/∞ are not representable, so `math.isfinite` checks hold trivially).
* Python `int` timestamps are modelled as `Int`; Python floor division `//`
  is `Int.fdiv`.
* The mutable per-hub state (`candle`, `last_emit_at`, client set, ring
  buffer) is threaded explicitly; broadcasts are recorded as an emitted list.
* The event-loop clock reads on lines 137 and 144 of the source are passed in
  as explicit time parameters `tOpen` and `tCheck`.
-/

namespace MarketWS

/-- `CandleState` dataclass (source lines 24–31). -/
structure CandleState where
  bucket_start : Int
  «open» : ℚ
  high : ℚ
  low : ℚ
  close : ℚ
  volume : ℚ
deriving DecidableEq, Repr

/-- `TIMEFRAME_SECONDS` table (source lines 15–21), as an association list. -/
def TIMEFRAME_SECONDS : List (String × Int) :=
  [("1m", 60), ("5m", 300), ("15m", 900), ("30m", 1800), ("1h", 3600)]

/-- `_bucket_start` (source lines 244–247): `seconds = event_time_ms // 1000`;
`(seconds // bucket_seconds) * bucket_seconds`.  Python `//` is floor
division, i.e. `Int.fdiv`. -/
def bucketStartOf (bucket_seconds : Int) (event_time_ms : Int) : Int :=
  let seconds := Int.fdiv event_time_ms 1000
  (Int.fdiv seconds bucket_seconds) * bucket_seconds

/-- A parsed upstream trade (source lines 106–109): price `p`, quantity `q`,
event time `E` in milliseconds. -/
structure Trade where
  p : ℚ
  q : ℚ
  E : Int
deriving DecidableEq, Repr

/-- Opening a fresh candle on bucket rollover (source lines 128–135). -/
def openCandle (bucket : Int) (price quantity : ℚ) : CandleState :=
  { bucket_start := bucket, «open» := price, high := price, low := price,
    close := price, volume := quantity }

/-- In-place update of the open candle (source lines 139–142). -/
def updateCandle (c : CandleState) (price quantity : ℚ) : CandleState :=
  { c with
    high := max c.high price
    low := min c.low price
    close := price
    volume := c.volume + quantity }

/-- The candle-aggregation step of `_run_stream` (source lines 113–142),
restricted to the evolution of the `candle` variable: roll over to a fresh
candle if none is open or the bucket changed, otherwise update in place. -/
def aggStep (bucket_seconds : Int) (candle : Option CandleState) (t : Trade) :
    CandleState :=
  let bucket := bucketStartOf bucket_seconds t.E
  match candle with
  | none => openCandle bucket t.p t.q
  | some c =>
      if bucket = c.bucket_start then updateCandle c t.p t.q
      else openCandle bucket t.p t.q

/-- Folding a list of trades through the aggregator, starting from an
optional open candle. -/
def foldTrades (bucket_seconds : Int) (init : Option CandleState)
    (ts : List Trade) : Option CandleState :=
  ts.foldl (fun c t => some (aggStep bucket_seconds c t)) init

/-- The `while current < next_bucket_start` loop body of
`_build_missing_candles` (source lines 182–195); `carry` is
`previous_candle.close`.  The positivity hypothesis on `bucket_seconds`
makes the source loop terminate (every table entry is positive). -/
def buildMissingAux (bucket_seconds : Int) (hbs : 0 < bucket_seconds)
    (carry : ℚ) (current next_bucket_start : Int) : List CandleState :=
  if _h : current < next_bucket_start then
    { bucket_start := current, «open» := carry, high := carry, low := carry,
      close := carry, volume := 0 }
      :: buildMissingAux bucket_seconds hbs carry (current + bucket_seconds)
        next_bucket_start
  else []
termination_by (next_bucket_start - current).toNat
decreasing_by omega

/-- `_build_missing_candles` (source lines 174–197). -/
def buildMissingCandles (bucket_seconds : Int) (hbs : 0 < bucket_seconds)
    (previous_candle : CandleState) (next_bucket_start : Int) :
    List CandleState :=
  buildMissingAux bucket_seconds hbs previous_candle.close
    (previous_candle.bucket_start + bucket_seconds) next_bucket_start

/-- One `await self.broadcast(...)` call issued by the ingestion loop:
the candle whose payload was built and the `event_time_ms` passed to
`_build_candle_update`. -/
structure Emit where
  candle : CandleState
  event_time_ms : Int
deriving DecidableEq, Repr

/-- The per-hub mutable state of `_run_stream` relevant to aggregation:
the optional open `candle` (line 93) and `last_emit_at` (line 94). -/
structure LoopState where
  candle : Option CandleState
  last_emit_at : ℚ
deriving DecidableEq, Repr

/-- `emit_interval_seconds = 1.0` (source line 95). -/
def emit_interval_seconds : ℚ := 1

/-- Processing of one successfully parsed trade by `_run_stream`
(source lines 113–147).  `tOpen` is the clock value read at line 137
(after a rollover broadcast) and `tCheck` the value read at line 144.
The returned list records the broadcasts issued, in order. -/
def processTrade (bucket_seconds : Int) (hbs : 0 < bucket_seconds)
    (st : LoopState) (t : Trade) (tOpen tCheck : ℚ) :
    LoopState × List Emit :=
  let bucket := bucketStartOf bucket_seconds t.E
  let step : CandleState × ℚ × List Emit :=
    match st.candle with
    | none =>
        (openCandle bucket t.p t.q, tOpen,
          [⟨openCandle bucket t.p t.q, t.E⟩])
    | some c =>
        if bucket = c.bucket_start then
          (updateCandle c t.p t.q, st.last_emit_at, [])
        else
          let gaps : List Emit :=
            if c.bucket_start < bucket then
              (buildMissingCandles bucket_seconds hbs c bucket).map
                (fun g => ⟨g, g.bucket_start * 1000⟩)
            else []
          (openCandle bucket t.p t.q, tOpen,
            gaps ++ [⟨openCandle bucket t.p t.q, t.E⟩])
  let c1 := step.1
  let lastEmit1 := step.2.1
  let pre := step.2.2
  if emit_interval_seconds ≤ tCheck - lastEmit1 then
    (⟨some c1, tCheck⟩, pre ++ [⟨c1, t.E⟩])
  else
    (⟨some c1, lastEmit1⟩, pre)

/-- Running the ingestion loop over a list of parsed trades, each paired
with the two clock readings for its iteration; broadcasts accumulate. -/
def runTrades (bucket_seconds : Int) (hbs : 0 < bucket_seconds) :
    LoopState → List (Trade × ℚ × ℚ) → LoopState × List Emit
  | st, [] => (st, [])
  | st, (t, tOpen, tCheck) :: rest =>
      let r1 := processTrade bucket_seconds hbs st t tOpen tCheck
      let r2 := runTrades bucket_seconds hbs r1.1 rest
      (r2.1, r1.2 ++ r2.2)

/-- Outcome of one attempt of the `while not self._stop_event.is_set()`
connection loop (source lines 97–152), as seen by the backoff logic. -/
inductive ConnEvent where
  | success
  | failure
deriving DecidableEq, Repr

/-- Evolution of `reconnect_delay`: a successful connection resets it to 1
(source line 100); a failure sleeps then doubles it capped at 30
(source lines 151–152). -/
def reconnectAfter (reconnect_delay : Nat) : ConnEvent → Nat
  | .success => 1
  | .failure => min (reconnect_delay * 2) 30

/-- The delays slept by `n` consecutive connection failures starting from
the current `reconnect_delay`: each failure sleeps the current delay
(line 151) and then doubles it capped at 30 (line 152). -/
def sleptDelays : Nat → Nat → List Nat
  | _, 0 => []
  | reconnect_delay, Nat.succ n =>
      reconnect_delay :: sleptDelays (min (reconnect_delay * 2) 30) n

/-- Python `str.lower()` (a standard-library call outside this
repository), modelled characterwise so that it evaluates in the
kernel. -/
def pyLower (s : String) : String := String.mk (s.data.map Char.toLower)

/-- Python `str.upper()` (a standard-library call outside this
repository), modelled characterwise so that it evaluates in the
kernel. -/
def pyUpper (s : String) : String := String.mk (s.data.map Char.toUpper)

/-- A Python value as inspected by `_is_valid_candle_payload`: `None`
(also standing for a missing key, since `dict.get` returns `None`), a
bool, an int, a float (modelled as `ℚ`), or a string. -/
inductive PValue where
  | vNone
  | vBool (b : Bool)
  | vInt (n : Int)
  | vNum (q : ℚ)
  | vStr (s : String)
deriving DecidableEq, Repr

/-- `isinstance(value, bool)` (source line 210). -/
def PValue.isBool : PValue → Bool
  | .vBool _ => true
  | _ => false

/-- `isinstance(value, (int, float))` for a non-bool value
(source line 212). -/
def PValue.isNumber : PValue → Bool
  | .vInt _ => true
  | .vNum _ => true
  | _ => false

/-- `float(value)` on an int or float (source lines 217–221); other shapes
never reach this conversion in the validator. -/
def PValue.toRat : PValue → ℚ
  | .vInt n => (n : ℚ)
  | .vNum q => q
  | _ => 0

/-- Non-empty string check used for `timestamp` and `server_time`
(source lines 231, 239). -/
def PValue.isNonemptyStr : PValue → Bool
  | .vStr s => !s.isEmpty
  | _ => false

/-- The nested `candle` dict of a payload; each field holds an arbitrary
Python value. -/
structure CandleDict where
  timestamp : PValue
  «open» : PValue
  high : PValue
  low : PValue
  close : PValue
  volume : PValue
deriving DecidableEq, Repr

/-- A candle-update payload dict.  `candle = none` models a payload whose
`"candle"` key is missing or not a dict (source line 204). -/
structure Payload where
  type : PValue
  symbol : PValue
  timeframe : PValue
  event_time_ms : PValue
  server_time : PValue
  candle : Option CandleDict
deriving DecidableEq, Repr

/-- `_is_valid_candle_payload` (source lines 199–242).  The
`math.isfinite` checks of line 214 hold for every `ℚ` and are therefore
not represented. -/
def isValidCandlePayload (payload : Payload) : Bool :=
  if payload.type ≠ PValue.vStr "candle_update" then false
  else match payload.candle with
  | none => false
  | some candle =>
    if candle.«open».isBool || candle.high.isBool || candle.low.isBool ||
        candle.close.isBool || candle.volume.isBool then false
    else if !(candle.«open».isNumber && candle.high.isNumber &&
        candle.low.isNumber && candle.close.isNumber &&
        candle.volume.isNumber) then false
    else
      let o := candle.«open».toRat
      let h := candle.high.toRat
      let l := candle.low.toRat
      let c := candle.close.toRat
      let v := candle.volume.toRat
      if o ≤ 0 ∨ h ≤ 0 ∨ l ≤ 0 ∨ c ≤ 0 then false
      else if v < 0 then false
      else if h < max o c ∨ l > min o c ∨ h < l then false
      else if !candle.timestamp.isNonemptyStr then false
      else
        match payload.event_time_ms with
        | .vInt _ => payload.server_time.isNonemptyStr
        | _ => false

/-- `_build_candle_update` (source lines 154–172).  The ISO-8601 rendering
of `candle.bucket_start` by `datetime.fromtimestamp(...).isoformat()` and
the `server_time` string produced by `datetime.now(...).isoformat()` are
standard-library calls outside this repository; they are passed in as the
rendering function `tsRender` and the string `server_time`. -/
def buildCandleUpdate (symbol timeframe : String) (tsRender : Int → String)
    (server_time : String) (candle : CandleState) (event_time_ms : Int) :
    Payload :=
  { type := .vStr "candle_update"
    symbol := .vStr symbol
    timeframe := .vStr timeframe
    event_time_ms := .vInt event_time_ms
    server_time := .vStr server_time
    candle := some
      { timestamp := .vStr (tsRender candle.bucket_start)
        «open» := .vNum candle.«open»
        high := .vNum candle.high
        low := .vNum candle.low
        close := .vNum candle.close
        volume := .vNum candle.volume } }

/-- The hub state touched by `broadcast`: the client set (clients are
identified by naturals) and the `deque(maxlen=5)` ring buffer of recent
payloads, oldest first. -/
structure HubState where
  clients : Finset ℕ
  recent_payloads : List Payload
deriving DecidableEq

/-- `deque(maxlen=5).append` (source lines 42, 69): append, evicting from
the front when capacity 5 is exceeded. -/
def pushRecent (ring : List Payload) (payload : Payload) : List Payload :=
  let r := ring ++ [payload]
  if 5 < r.length then r.drop (r.length - 5) else r

/-- Result of one `broadcast` call: the new hub state, the snapshot of
clients to whom delivery was attempted, and those whose send succeeded. -/
structure BroadcastResult where
  state : HubState
  attempted : Finset ℕ
  delivered : Finset ℕ
deriving DecidableEq

/-- `broadcast` (source lines 59–88).  `sendOk client` tells whether
`client.send_json` succeeds or raises.  An invalid payload returns with no
state change (lines 60–67); otherwise the payload is appended to the ring
buffer, delivery is attempted to every client of the snapshot
independently, and the clients whose send raised are discarded. -/
def broadcast (sendOk : ℕ → Bool) (st : HubState) (payload : Payload) :
    BroadcastResult :=
  if !isValidCandlePayload payload then
    { state := st, attempted := ∅, delivered := ∅ }
  else
    let snapshot := st.clients
    let disconnected := snapshot.filter (fun c => ¬ sendOk c)
    { state :=
        { clients := st.clients \ disconnected
          recent_payloads := pushRecent st.recent_payloads payload }
      attempted := snapshot
      delivered := snapshot.filter (fun c => sendOk c) }

/-- The identifying fields of `MarketStreamHub.__init__`
(source lines 35–37): the symbol is uppercased, the timeframe kept. -/
structure MarketStreamHub where
  symbol : String
  timeframe : String
deriving DecidableEq, Repr

/-- `MarketStreamHub(symbol=symbol, timeframe=timeframe)` construction
(source lines 35–37). -/
def hubInit (symbol timeframe : String) : MarketStreamHub :=
  { symbol := pyUpper symbol, timeframe := timeframe }

/-- The module-level `_hubs` dict (source line 250), as an association
list in insertion order. -/
abbrev Registry := List ((String × String) × MarketStreamHub)

/-- `key in _hubs` / `_hubs[key]` lookup. -/
def lookupHub (reg : Registry) (key : String × String) :
    Option MarketStreamHub :=
  (reg.find? (fun e => e.1 = key)).map (fun e => e.2)

/-- `get_market_hub` (source lines 253–257): key on the uppercased symbol
and the timeframe; create and store a hub on first lookup. -/
def get_market_hub (reg : Registry) (symbol timeframe : String) :
    Registry × MarketStreamHub :=
  let key := (pyUpper symbol, timeframe)
  match lookupHub reg key with
  | some hub => (reg, hub)
  | none =>
      let hub := hubInit symbol timeframe
      (reg ++ [(key, hub)], hub)

/-- Outcome of the `/ws/market` entry point before the receive loop:
either the connection was closed with a close code, or the client was
attached to a hub. -/
inductive WsDecision where
  | rejected (code : Nat) (reason : String)
  | attached (hub : MarketStreamHub)
deriving DecidableEq, Repr

/-- `market_ws` (main.py lines 55–67) up to the attachment of the client:
lowercase the timeframe, close with code 1008 if it is not a key of
`TIMEFRAME_SECONDS`, otherwise look up (possibly creating) the hub.  The
returned registry is the `_hubs` state after the call. -/
def market_ws (reg : Registry) (symbol timeframe : String) :
    Registry × WsDecision :=
  let tf := pyLower timeframe
  if (TIMEFRAME_SECONDS.find? (fun e => e.1 = tf)).isSome then
    let r := get_market_hub reg symbol tf
    (r.1, .attached r.2)
  else
    (reg, .rejected 1008 "Unsupported timeframe")

/-- The shape of a synthetic gap candle: all four prices equal to the
carried-forward close, zero volume (source lines 184–193). -/
def flatCandle (s : Int) (carry : ℚ) : CandleState :=
  { bucket_start := s, «open» := carry, high := carry, low := carry,
    close := carry, volume := 0 }

/-- The trade opens a new bucket: no candle is open, or the computed
bucket differs from the open candle's (source line 114). -/
def opensNewBucket (bucket_seconds : Int) (st : LoopState) (t : Trade) :
    Prop :=
  ∀ c, st.candle = some c →
    bucketStartOf bucket_seconds t.E ≠ c.bucket_start

/-- The candle invariants of the spec (§3): `high ≥ max(open, close)`,
`low ≤ min(open, close)`, `high ≥ low`, prices positive, volume
non-negative.  Finiteness is automatic over `ℚ`. -/
def CandleInv (c : CandleState) : Prop :=
  max c.«open» c.close ≤ c.high ∧ c.low ≤ min c.«open» c.close ∧
  c.low ≤ c.high ∧ 0 < c.«open» ∧ 0 < c.high ∧ 0 < c.low ∧
  0 < c.close ∧ 0 ≤ c.volume

/-- Every `_hubs` entry was stored by `get_market_hub`, so its hub's
`symbol` field equals the first component of its key. -/
def RegistryWF (reg : Registry) : Prop :=
  ∀ e ∈ reg, e.2.symbol = e.1.1

/-- A concrete well-formed candle-update payload, used as a test input. -/
def samplePayload : Payload :=
  { type := .vStr "candle_update"
    symbol := .vStr "BTCUSDT"
    timeframe := .vStr "1m"
    event_time_ms := .vInt 60000
    server_time := .vStr "srv"
    candle := some
      { timestamp := .vStr "ts"
        «open» := .vNum 3
        high := .vNum 5
        low := .vNum 2
        close := .vNum 4
        volume := .vNum 7 } }

/-- A concrete payload whose candle has `high < low`, used as a test
input. -/
def badPayload : Payload :=
  { type := .vStr "candle_update"
    symbol := .vStr "BTCUSDT"
    timeframe := .vStr "1m"
    event_time_ms := .vInt 60000
    server_time := .vStr "srv"
    candle := some
      { timestamp := .vStr "ts"
        «open» := .vNum 3
        high := .vNum 2
        low := .vNum 5
        close := .vNum 3
        volume := .vNum 7 } }

/-! ## Helper lemmas -/

theorem buildMissingAux_of_lt {bucket_seconds : Int} (hbs : 0 < bucket_seconds)
    (carry : ℚ) {current next_bucket_start : Int}
    (h : current < next_bucket_start) :
    buildMissingAux bucket_seconds hbs carry current next_bucket_start =
      flatCandle current carry ::
        buildMissingAux bucket_seconds hbs carry (current + bucket_seconds)
          next_bucket_start := by
  rw [buildMissingAux]
  simp [h, flatCandle]

theorem buildMissingAux_of_ge {bucket_seconds : Int} (hbs : 0 < bucket_seconds)
    (carry : ℚ) {current next_bucket_start : Int}
    (h : ¬ current < next_bucket_start) :
    buildMissingAux bucket_seconds hbs carry current next_bucket_start = [] := by
  rw [buildMissingAux]
  simp [h]

theorem mem_buildMissingAux {bucket_seconds : Int} (hbs : 0 < bucket_seconds)
    (carry : ℚ) (current next_bucket_start : Int) (x : CandleState) :
    x ∈ buildMissingAux bucket_seconds hbs carry current next_bucket_start ↔
      ∃ j : ℕ, x = flatCandle (current + j * bucket_seconds) carry ∧
        current + j * bucket_seconds < next_bucket_start := by
  induction current, next_bucket_start using buildMissingAux.induct bucket_seconds hbs carry with
  | case1 current next hlt ih =>
    rw [buildMissingAux_of_lt hbs carry hlt]
    simp only [List.mem_cons, ih]
    constructor
    · rintro (rfl | ⟨j, rfl, hj⟩)
      · exact ⟨0, by simp, by simpa using hlt⟩
      · refine ⟨j + 1, by push_cast; ring_nf, ?_⟩
        push_cast
        linarith
    · rintro ⟨j, rfl, hj⟩
      cases j with
      | zero => left; simp
      | succ k =>
        right
        refine ⟨k, by push_cast; ring_nf, ?_⟩
        push_cast at hj
        linarith
  | case2 current next hge =>
    rw [buildMissingAux_of_ge hbs carry hge]
    simp only [List.not_mem_nil, false_iff, not_exists, not_and]
    rintro j rfl
    have hj : (0 : Int) ≤ (j : Int) * bucket_seconds :=
      mul_nonneg (by positivity) hbs.le
    omega

theorem pairwise_buildMissingAux {bucket_seconds : Int}
    (hbs : 0 < bucket_seconds) (carry : ℚ) (current next_bucket_start : Int) :
    List.Pairwise (fun a b : CandleState => a.bucket_start < b.bucket_start)
      (buildMissingAux bucket_seconds hbs carry current next_bucket_start) := by
  induction current, next_bucket_start
    using buildMissingAux.induct bucket_seconds hbs carry with
  | case1 current next hlt ih =>
    rw [buildMissingAux_of_lt hbs carry hlt]
    refine List.Pairwise.cons ?_ ih
    intro b hb
    rw [mem_buildMissingAux] at hb
    obtain ⟨j, rfl, hj⟩ := hb
    have hjb : (0 : Int) ≤ (j : Int) * bucket_seconds :=
      mul_nonneg (by positivity) hbs.le
    simp only [flatCandle]
    linarith
  | case2 current next hge =>
    rw [buildMissingAux_of_ge hbs carry hge]
    exact List.Pairwise.nil

/-- C2: Gap Filler correctness and ordering.  The synthetic candles are
exactly the flat previous-close, zero-volume candles for the buckets
`B + j·interval` (`j ≥ 1`) strictly before `N`; they come in strictly
increasing `bucket_start` order; a gap of zero or one bucket produces
none; and in the processing of the trade that lands in bucket `N` every
synthetic candle is broadcast (with `event_time_ms = bucket_start·1000`)
strictly before the real candle for `N`. -/
theorem gap_filler_correctness (bucket_seconds : Int)
    (hbs : 0 < bucket_seconds) (prev : CandleState) (N : Int)
    (st : LoopState) (t : Trade) (tOpen tCheck : ℚ) :
    (∀ x, x ∈ buildMissingCandles bucket_seconds hbs prev N ↔
      ∃ j : ℕ, 1 ≤ j ∧
        x = flatCandle (prev.bucket_start + j * bucket_seconds) prev.close ∧
        prev.bucket_start + j * bucket_seconds < N) ∧
    List.Pairwise (fun a b : CandleState => a.bucket_start < b.bucket_start)
      (buildMissingCandles bucket_seconds hbs prev N) ∧
    (N ≤ prev.bucket_start + bucket_seconds →
      buildMissingCandles bucket_seconds hbs prev N = []) ∧
    (st.candle = some prev → bucketStartOf bucket_seconds t.E = N →
      prev.bucket_start < N →
      ∃ tail,
        (processTrade bucket_seconds hbs st t tOpen tCheck).2 =
          (buildMissingCandles bucket_seconds hbs prev N).map
            (fun g => ⟨g, g.bucket_start * 1000⟩) ++
          ⟨openCandle N t.p t.q, t.E⟩ :: tail) := by
  refine ⟨?_, ?_, ?_, ?_⟩
  · intro x
    rw [buildMissingCandles, mem_buildMissingAux]
    constructor
    · rintro ⟨j, rfl, hj⟩
      refine ⟨j + 1, by omega, ?_, ?_⟩
      · congr 1
        push_cast
        ring
      · push_cast
        linarith
    · rintro ⟨j, hj1, rfl, hj⟩
      obtain ⟨k, rfl⟩ : ∃ k, j = k + 1 := ⟨j - 1, by omega⟩
      refine ⟨k, ?_, ?_⟩
      · congr 1
        push_cast
        ring
      · push_cast at hj
        linarith
  · exact pairwise_buildMissingAux hbs prev.close _ N
  · intro hle
    exact buildMissingAux_of_ge hbs prev.close (by omega)
  · intro hst hN hlt
    have hne : ¬ N = prev.bucket_start := by omega
    simp only [processTrade, hst, hN, if_neg hne, if_pos hlt]
    split
    · exact ⟨[⟨openCandle N t.p t.q, t.E⟩], by simp⟩
    · exact ⟨[], by simp⟩

/-- Witness for C2 at `interval = 60`, previous candle on bucket `0`
with close `5`, next trade in bucket `180`. -/
theorem gap_filler_correctness_witness :
    ∃ tail,
      (processTrade 60 (by decide) ⟨some ⟨0, 5, 5, 5, 5, 1⟩, 0⟩
        ⟨7, 2, 190000⟩ 0 0).2 =
        (buildMissingCandles 60 (by decide) ⟨0, 5, 5, 5, 5, 1⟩ 180).map
          (fun g => ⟨g, g.bucket_start * 1000⟩) ++
        ⟨openCandle 180 7 2, 190000⟩ :: tail :=
  (gap_filler_correctness 60 (by decide) ⟨0, 5, 5, 5, 5, 1⟩ 180
    ⟨some ⟨0, 5, 5, 5, 5, 1⟩, 0⟩ ⟨7, 2, 190000⟩ 0 0).2.2.2
    rfl (by decide) (by decide)

theorem getLast?_cons_getD {α : Type} (a : α) (l : List α) :
    ∀ d, (a :: l).getLast?.getD d = l.getLast?.getD a := by
  induction l generalizing a with
  | nil => intro d; rfl
  | cons b l ih =>
    intro d
    rw [List.getLast?_cons_cons, ih b d, ih b a]

theorem foldTrades_same_bucket (bucket_seconds : Int) (c : CandleState)
    (ts : List Trade)
    (hsame : ∀ t ∈ ts, bucketStartOf bucket_seconds t.E = c.bucket_start) :
    foldTrades bucket_seconds (some c) ts = some
      { bucket_start := c.bucket_start
        «open» := c.«open»
        high := (ts.map Trade.p).foldl max c.high
        low := (ts.map Trade.p).foldl min c.low
        close := (ts.map Trade.p).getLast?.getD c.close
        volume := c.volume + (ts.map Trade.q).sum } := by
  induction ts generalizing c with
  | nil =>
    simp only [foldTrades, List.foldl_nil, List.map_nil, Option.getD_none,
      List.getLast?_nil, List.sum_nil, add_zero]
  | cons t ts ih =>
    have hbucket : bucketStartOf bucket_seconds t.E = c.bucket_start :=
      hsame t (List.mem_cons_self t ts)
    have hstep : aggStep bucket_seconds (some c) t = updateCandle c t.p t.q := by
      simp [aggStep, hbucket]
    have htail : ∀ u ∈ ts,
        bucketStartOf bucket_seconds u.E =
          (updateCandle c t.p t.q).bucket_start := by
      intro u hu
      simpa [updateCandle] using hsame u (List.mem_cons_of_mem t hu)
    have := ih (updateCandle c t.p t.q) htail
    simp only [foldTrades, List.foldl_cons] at this ⊢
    rw [hstep, this]
    simp only [updateCandle, List.map_cons, List.foldl_cons, List.sum_cons]
    congr 1
    rw [getLast?_cons_getD]
    ring_nf

/-- C1: Candle Aggregator fold correctness.  Folding a non-empty list of
trades that all fall in bucket `B` through the aggregation step of
`_run_stream`, starting with no open candle, yields a candle on bucket
`B` with `open` the first price, `high`/`low` the maximum/minimum price,
`close` the last price and `volume` the sum of the quantities. -/
theorem candle_aggregator_fold (bucket_seconds B : Int) (t0 : Trade)
    (rest : List Trade)
    (hsame : ∀ t ∈ t0 :: rest, bucketStartOf bucket_seconds t.E = B) :
    ∃ c, foldTrades bucket_seconds none (t0 :: rest) = some c ∧
      c.bucket_start = B ∧
      c.«open» = t0.p ∧
      c.high = (rest.map Trade.p).foldl max t0.p ∧
      c.low = (rest.map Trade.p).foldl min t0.p ∧
      c.close = (rest.map Trade.p).getLast?.getD t0.p ∧
      c.volume = ((t0 :: rest).map Trade.q).sum := by
  have h0 : bucketStartOf bucket_seconds t0.E = B :=
    hsame t0 (List.mem_cons_self t0 rest)
  have hopen : aggStep bucket_seconds none t0 = openCandle B t0.p t0.q := by
    simp [aggStep, h0]
  have htail : ∀ u ∈ rest,
      bucketStartOf bucket_seconds u.E =
        (openCandle B t0.p t0.q).bucket_start := by
    intro u hu
    simpa [openCandle] using hsame u (List.mem_cons_of_mem t0 hu)
  refine ⟨{ bucket_start := B
            «open» := t0.p
            high := (rest.map Trade.p).foldl max t0.p
            low := (rest.map Trade.p).foldl min t0.p
            close := (rest.map Trade.p).getLast?.getD t0.p
            volume := ((t0 :: rest).map Trade.q).sum },
    ?_, rfl, rfl, rfl, rfl, rfl, rfl⟩
  have hrest := foldTrades_same_bucket bucket_seconds
    (openCandle B t0.p t0.q) rest htail
  simp only [foldTrades, List.foldl_cons] at hrest ⊢
  rw [hopen, hrest]
  simp [openCandle]

/-- Witness for C1: three trades in the `300 s` bucket starting at `0`
with prices `100, 105, 95` and quantities `1, 2, 1`. -/
theorem candle_aggregator_fold_witness :
    ∃ c, foldTrades 300 none
        [⟨100, 1, 0⟩, ⟨105, 2, 10000⟩, ⟨95, 1, 200000⟩] = some c ∧
      c.bucket_start = 0 ∧
      c.«open» = 100 ∧
      c.high = ([⟨105, 2, 10000⟩, ⟨95, 1, 200000⟩].map Trade.p).foldl
        max 100 ∧
      c.low = ([⟨105, 2, 10000⟩, ⟨95, 1, 200000⟩].map Trade.p).foldl
        min 100 ∧
      c.close = ([⟨105, 2, 10000⟩, ⟨95, 1, 200000⟩].map
        Trade.p).getLast?.getD 100 ∧
      c.volume = ([⟨100, 1, 0⟩, ⟨105, 2, 10000⟩, ⟨95, 1, 200000⟩].map
        Trade.q).sum :=
  candle_aggregator_fold 300 0 ⟨100, 1, 0⟩
    [⟨105, 2, 10000⟩, ⟨95, 1, 200000⟩] (by decide)

theorem sleptDelays_length (d n : ℕ) : (sleptDelays d n).length = n := by
  induction n generalizing d with
  | zero => rfl
  | succ n ih => simp [sleptDelays, ih]

theorem sleptDelays_getElem (n : ℕ) :
    ∀ d i : ℕ, d ≤ 30 → i < n →
      (sleptDelays d n)[i]? = some (min (d * 2 ^ i) 30) := by
  induction n with
  | zero => intro d i _ hi; omega
  | succ n ih =>
    intro d i hd hi
    cases i with
    | zero =>
      simp [sleptDelays, Nat.min_eq_left hd]
    | succ k =>
      have hstep : min (d * 2) 30 ≤ 30 := Nat.min_le_right _ _
      have hk : k < n := by omega
      have := ih (min (d * 2) 30) k hstep hk
      simp only [sleptDelays, List.getElem?_cons_succ, this]
      congr 1
      by_cases hcap : d * 2 ≤ 30
      · rw [Nat.min_eq_left hcap, pow_succ]
        ring_nf
      · have h2k : 1 ≤ 2 ^ k := Nat.one_le_two_pow
        have hmin : min (d * 2) 30 = 30 := Nat.min_eq_right (by omega)
        have h30 : 30 ≤ 30 * 2 ^ k := Nat.le_mul_of_pos_right 30 (by omega)
        have hbig : 30 ≤ d * 2 ^ (k + 1) := by
          rw [pow_succ]
          calc (30 : ℕ) ≤ (30 * 2 ^ k) := h30
            _ ≤ (d * 2) * 2 ^ k := Nat.mul_le_mul_right _ (by omega)
            _ = d * (2 ^ k * 2) := by ring
        rw [hmin, Nat.min_eq_right h30, Nat.min_eq_right hbig]

/-- C4: Backoff schedule.  Starting from the reset value `1`, the delays
slept under consecutive immediate connection failures are
`1, 2, 4, 8, 16, 30, 30, …` — the `i`-th slept delay is
`min (2 ^ i) 30` — and any successful connection resets
`reconnect_delay` to `1`. -/
theorem backoff_schedule :
    sleptDelays 1 7 = [1, 2, 4, 8, 16, 30, 30] ∧
    (∀ n i : ℕ, i < n →
      (sleptDelays 1 n)[i]? = some (min (2 ^ i) 30)) ∧
    (∀ d : ℕ, reconnectAfter d ConnEvent.success = 1) := by
  refine ⟨rfl, ?_, fun d => rfl⟩
  intro n i hi
  simpa using sleptDelays_getElem n 1 i (by omega) hi

/-- Witness for C4: the sixth slept delay (index 5) is capped at 30. -/
theorem backoff_schedule_witness :
    (sleptDelays 1 7)[5]? = some (min (2 ^ 5) 30) :=
  backoff_schedule.2.1 7 5 (by decide)

theorem isValid_eq_false_of_high_lt_low (payload : Payload)
    (cd : CandleDict) (hc : payload.candle = some cd)
    (hlt : cd.high.toRat < cd.low.toRat) :
    isValidCandlePayload payload = false := by
  cases hv : isValidCandlePayload payload with
  | false => rfl
  | true =>
    exfalso
    simp only [isValidCandlePayload, hc] at hv
    split at hv
    · cases hv
    · split at hv
      · cases hv
      · split at hv
        · cases hv
        · split at hv
          · cases hv
          · split at hv
            · cases hv
            · split at hv
              · cases hv
              · rename_i hcond
                exact hcond (Or.inr (Or.inr hlt))

/-- C3: Rejected-payload atomicity.  A payload whose candle carries
numeric `high` and `low` with `high < low` fails validation, so
`broadcast` returns with delivery attempted to no client, the ring
buffer untouched and the client set unchanged; the model is a total
function, so no exception reaches the caller. -/
theorem rejected_payload_atomicity (sendOk : ℕ → Bool) (st : HubState)
    (payload : Payload) (cd : CandleDict) (hc : payload.candle = some cd)
    (_hh : cd.high.isNumber = true) (_hl : cd.low.isNumber = true)
    (hlt : cd.high.toRat < cd.low.toRat) :
    broadcast sendOk st payload =
      { state := st, attempted := ∅, delivered := ∅ } := by
  have hfalse := isValid_eq_false_of_high_lt_low payload cd hc hlt
  simp [broadcast, hfalse]

/-- Witness for C3 at the concrete `badPayload` (`high = 2 < 5 = low`)
and a hub with one client. -/
theorem rejected_payload_atomicity_witness :
    broadcast (fun _ => true) ⟨{1}, []⟩ badPayload =
      { state := ⟨{1}, []⟩, attempted := ∅, delivered := ∅ } :=
  rejected_payload_atomicity (fun _ => true) ⟨{1}, []⟩ badPayload
    { timestamp := .vStr "ts"
      «open» := .vNum 3
      high := .vNum 2
      low := .vNum 5
      close := .vNum 3
      volume := .vNum 7 }
    rfl rfl rfl (by norm_num [PValue.toRat])

/-- C6: Fan-out pruning frame property.  For a valid payload, delivery is
attempted to every client of the snapshot, the delivered set is exactly
the clients whose send succeeded (independent of the others), and after
the pass the client set is exactly the snapshot minus the failed
clients: survivors stay, failed clients are removed. -/
theorem fanout_pruning (sendOk : ℕ → Bool) (st : HubState)
    (payload : Payload) (hvalid : isValidCandlePayload payload = true) :
    (broadcast sendOk st payload).attempted = st.clients ∧
    (broadcast sendOk st payload).delivered =
      st.clients.filter (fun c => sendOk c) ∧
    (broadcast sendOk st payload).state.clients =
      st.clients.filter (fun c => sendOk c) ∧
    (∀ c ∈ st.clients, sendOk c = true →
      c ∈ (broadcast sendOk st payload).state.clients) ∧
    (∀ c ∈ st.clients, sendOk c = false →
      c ∉ (broadcast sendOk st payload).state.clients) := by
  have hcl : st.clients \ st.clients.filter (fun c => ¬ sendOk c) =
      st.clients.filter (fun c => sendOk c) := by
    ext a
    simp only [Finset.mem_sdiff, Finset.mem_filter]
    tauto
  simp only [broadcast, hvalid, Bool.not_true, Bool.false_eq_true,
    if_false, hcl]
  refine ⟨trivial, trivial, trivial, ?_, ?_⟩
  · intro c hcmem hok
    simp [Finset.mem_filter, hcmem, hok]
  · intro c hcmem hko
    simp [Finset.mem_filter, hcmem, hko]

/-- Witness for C6 at `samplePayload` with clients `{1, 2}`, where
delivery to client `2` fails. -/
theorem fanout_pruning_witness :
    (broadcast (fun c => c == 1) ⟨{1, 2}, []⟩ samplePayload).state.clients =
      ({1, 2} : Finset ℕ).filter (fun c => c == 1) :=
  (fanout_pruning (fun c => c == 1) ⟨{1, 2}, []⟩ samplePayload
    (by decide)).2.2.1

/-- C5: Broadcast coalescing.  A trade that opens a new bucket always has
the just-opened candle among the issued broadcasts, and the last-emit
time is updated (to the post-broadcast clock, or to the trailing check's
clock when a further second already elapsed).  A trade that updates the
open bucket in place issues a broadcast if and only if at least
`emit_interval_seconds = 1.0` elapsed since the last emit. -/
theorem broadcast_coalescing (bucket_seconds : Int) (hbs : 0 < bucket_seconds)
    (st : LoopState) (t : Trade) (tOpen tCheck : ℚ) :
    (opensNewBucket bucket_seconds st t →
      (⟨openCandle (bucketStartOf bucket_seconds t.E) t.p t.q, t.E⟩ : Emit) ∈
        (processTrade bucket_seconds hbs st t tOpen tCheck).2 ∧
      (processTrade bucket_seconds hbs st t tOpen tCheck).1.last_emit_at =
        (if emit_interval_seconds ≤ tCheck - tOpen then tCheck else tOpen)) ∧
    (∀ c, st.candle = some c →
      bucketStartOf bucket_seconds t.E = c.bucket_start →
      (processTrade bucket_seconds hbs st t tOpen tCheck).2 =
        (if emit_interval_seconds ≤ tCheck - st.last_emit_at then
          [⟨updateCandle c t.p t.q, t.E⟩] else []) ∧
      ((processTrade bucket_seconds hbs st t tOpen tCheck).2 ≠ [] ↔
        emit_interval_seconds ≤ tCheck - st.last_emit_at)) := by
  constructor
  · intro hnew
    cases hst : st.candle with
    | none =>
      simp only [processTrade, hst]
      split
      · exact ⟨by simp, rfl⟩
      · exact ⟨by simp, rfl⟩
    | some c =>
      have hne : ¬ bucketStartOf bucket_seconds t.E = c.bucket_start :=
        hnew c hst
      simp only [processTrade, hst, if_neg hne]
      split
      · exact ⟨by simp, rfl⟩
      · exact ⟨by simp, rfl⟩
  · intro c hst hbeq
    simp only [processTrade, hst, hbeq, eq_self_iff_true, ite_true]
    constructor
    · split
      · rfl
      · rfl
    · split
      · rename_i h
        simpa using h
      · rename_i h
        simpa using h

/-- Witness for C5: a first trade (no open candle) is broadcast
immediately. -/
theorem broadcast_coalescing_witness :
    (⟨openCandle (bucketStartOf 60 0) 5 1, 0⟩ : Emit) ∈
      (processTrade 60 (by decide) ⟨none, 0⟩ ⟨5, 1, 0⟩ 0 0).2 ∧
    (processTrade 60 (by decide) ⟨none, 0⟩ ⟨5, 1, 0⟩ 0 0).1.last_emit_at =
      (if emit_interval_seconds ≤ (0 : ℚ) - 0 then (0 : ℚ) else 0) :=
  (broadcast_coalescing 60 (by decide) ⟨none, 0⟩ ⟨5, 1, 0⟩ 0 0).1
    (fun c hc => by cases hc)

theorem candleInv_openCandle (b : Int) (p q : ℚ) (hp : 0 < p)
    (hq : 0 ≤ q) : CandleInv (openCandle b p q) := by
  refine ⟨le_of_eq (max_self p), le_of_eq (min_self p).symm, le_rfl,
    hp, hp, hp, hp, hq⟩

theorem candleInv_updateCandle (c : CandleState) (hc : CandleInv c)
    (p q : ℚ) (hp : 0 < p) (hq : 0 ≤ q) :
    CandleInv (updateCandle c p q) := by
  obtain ⟨h1, h2, h3, h4, h5, h6, h7, h8⟩ := hc
  refine ⟨?_, ?_, ?_, h4, ?_, ?_, hp, ?_⟩
  · exact max_le (((le_max_left c.«open» c.close).trans h1).trans
      (le_max_left c.high p)) (le_max_right c.high p)
  · exact le_min ((min_le_left c.low p).trans
      (h2.trans (min_le_left c.«open» c.close))) (min_le_right c.low p)
  · exact (min_le_right c.low p).trans (le_max_right c.high p)
  · exact lt_of_lt_of_le h5 (le_max_left c.high p)
  · exact lt_min h6 hp
  · exact add_nonneg h8 hq

theorem candleInv_flatCandle (s : Int) (carry : ℚ) (h : 0 < carry) :
    CandleInv (flatCandle s carry) := by
  refine ⟨le_of_eq (max_self carry), le_of_eq (min_self carry).symm,
    le_rfl, h, h, h, h, le_rfl⟩

theorem processTrade_inv (bucket_seconds : Int) (hbs : 0 < bucket_seconds)
    (st : LoopState) (t : Trade) (tOpen tCheck : ℚ)
    (hp : 0 < t.p) (hq : 0 ≤ t.q)
    (h0 : ∀ c, st.candle = some c → CandleInv c) :
    (∀ c, (processTrade bucket_seconds hbs st t tOpen tCheck).1.candle =
      some c → CandleInv c) ∧
    (∀ e ∈ (processTrade bucket_seconds hbs st t tOpen tCheck).2,
      CandleInv e.candle) := by
  cases hst : st.candle with
  | none =>
    have hopen := candleInv_openCandle
      (bucketStartOf bucket_seconds t.E) t.p t.q hp hq
    simp only [processTrade, hst]
    split
    · constructor
      · rintro c hc
        rw [Option.some_inj] at hc
        exact hc ▸ hopen
      · intro e he
        simp only [List.mem_append, List.mem_cons, List.mem_singleton,
          List.not_mem_nil, or_false] at he
        rcases he with rfl | rfl <;> exact hopen
    · constructor
      · rintro c hc
        rw [Option.some_inj] at hc
        exact hc ▸ hopen
      · intro e he
        simp only [List.mem_singleton] at he
        subst he
        exact hopen
  | some prev =>
    have hprev : CandleInv prev := h0 prev hst
    by_cases hbeq : bucketStartOf bucket_seconds t.E = prev.bucket_start
    · have hupd := candleInv_updateCandle prev hprev t.p t.q hp hq
      simp only [processTrade, hst, hbeq, eq_self_iff_true, ite_true]
      split
      · constructor
        · rintro c hc
          rw [Option.some_inj] at hc
          exact hc ▸ hupd
        · intro e he
          simp only [List.nil_append, List.mem_singleton] at he
          subst he
          exact hupd
      · constructor
        · rintro c hc
          rw [Option.some_inj] at hc
          exact hc ▸ hupd
        · intro e he
          simp at he
    · have hopen := candleInv_openCandle
        (bucketStartOf bucket_seconds t.E) t.p t.q hp hq
      have hclose : 0 < prev.close := hprev.2.2.2.2.2.2.1
      have hgap : ∀ e ∈ (buildMissingCandles bucket_seconds hbs prev
          (bucketStartOf bucket_seconds t.E)).map
            (fun g => (⟨g, g.bucket_start * 1000⟩ : Emit)),
          CandleInv e.candle := by
        intro e he
        simp only [List.mem_map] at he
        obtain ⟨g, hg, rfl⟩ := he
        rw [buildMissingCandles, mem_buildMissingAux] at hg
        obtain ⟨j, rfl, hj⟩ := hg
        exact candleInv_flatCandle _ _ hclose
      simp only [processTrade, hst, if_neg hbeq]
      by_cases hlt : prev.bucket_start < bucketStartOf bucket_seconds t.E
      · simp only [if_pos hlt]
        split
        · refine ⟨?_, ?_⟩
          · rintro c hc
            rw [Option.some_inj] at hc
            exact hc ▸ hopen
          · intro e he
            simp only [List.mem_append, List.mem_cons, List.mem_singleton,
              List.not_mem_nil, or_false] at he
            rcases he with (hg | rfl) | rfl
            · exact hgap e hg
            · exact hopen
            · exact hopen
        · refine ⟨?_, ?_⟩
          · rintro c hc
            rw [Option.some_inj] at hc
            exact hc ▸ hopen
          · intro e he
            simp only [List.mem_append, List.mem_cons, List.mem_singleton,
              List.not_mem_nil, or_false] at he
            rcases he with hg | rfl
            · exact hgap e hg
            · exact hopen
      · simp only [if_neg hlt]
        split
        · refine ⟨?_, ?_⟩
          · rintro c hc
            rw [Option.some_inj] at hc
            exact hc ▸ hopen
          · intro e he
            simp only [List.nil_append, List.mem_append, List.mem_cons,
              List.mem_singleton, List.not_mem_nil, or_false] at he
            rcases he with rfl | rfl <;> exact hopen
        · refine ⟨?_, ?_⟩
          · rintro c hc
            rw [Option.some_inj] at hc
            exact hc ▸ hopen
          · intro e he
            simp only [List.nil_append, List.mem_singleton] at he
            subst he
            exact hopen

/-- C8: CandleState invariant preservation.  Running the ingestion loop
over any list of trades with positive prices and non-negative
quantities, from a state whose open candle (if any) satisfies the candle
invariants, every candle the loop holds at the end and every candle it
broadcast along the way — fresh, updated in place, or synthesized by the
Gap Filler — satisfies `high ≥ max(open, close)`,
`low ≤ min(open, close)`, `high ≥ low`, positive prices and non-negative
volume. -/
theorem candle_invariant_preservation (bucket_seconds : Int)
    (hbs : 0 < bucket_seconds) (trades : List (Trade × ℚ × ℚ))
    (hpos : ∀ x ∈ trades, 0 < x.1.p ∧ 0 ≤ x.1.q) (st : LoopState)
    (h0 : ∀ c, st.candle = some c → CandleInv c) :
    (∀ c, (runTrades bucket_seconds hbs st trades).1.candle = some c →
      CandleInv c) ∧
    (∀ e ∈ (runTrades bucket_seconds hbs st trades).2,
      CandleInv e.candle) := by
  induction trades generalizing st with
  | nil =>
    refine ⟨h0, ?_⟩
    intro e he
    simp [runTrades] at he
  | cons x rest ih =>
    obtain ⟨t, tOpen, tCheck⟩ := x
    have hx := hpos ⟨t, tOpen, tCheck⟩ (List.mem_cons_self _ _)
    have hstep := processTrade_inv bucket_seconds hbs st t tOpen tCheck
      hx.1 hx.2 h0
    have hrest : ∀ y ∈ rest, 0 < y.1.p ∧ 0 ≤ y.1.q := by
      intro y hy
      exact hpos y (List.mem_cons_of_mem _ hy)
    have hih := ih hrest
      (processTrade bucket_seconds hbs st t tOpen tCheck).1 hstep.1
    simp only [runTrades]
    refine ⟨hih.1, ?_⟩
    intro e he
    simp only [List.mem_append] at he
    rcases he with he | he
    · exact hstep.2 e he
    · exact hih.2 e he

/-- Witness for C8: two trades, the second opening a later bucket with a
gap. -/
theorem candle_invariant_preservation_witness :
    (∀ c, (runTrades 60 (by decide) ⟨none, 0⟩
      [(⟨5, 1, 0⟩, 0, 0), (⟨7, 2, 190000⟩, 3, 3)]).1.candle = some c →
      CandleInv c) ∧
    (∀ e ∈ (runTrades 60 (by decide) ⟨none, 0⟩
      [(⟨5, 1, 0⟩, 0, 0), (⟨7, 2, 190000⟩, 3, 3)]).2,
      CandleInv e.candle) :=
  candle_invariant_preservation 60 (by decide)
    [(⟨5, 1, 0⟩, 0, 0), (⟨7, 2, 190000⟩, 3, 3)] (by norm_num)
    ⟨none, 0⟩ (fun c hc => by cases hc)

/-- C7 counterexample: the timeframe key `"1M"` is not in the fixed
table, yet the entry point does not close the connection — it lowercases
the key first, attaches the client and creates a registry entry. -/
theorem timeframe_rejection_counterexample :
    (TIMEFRAME_SECONDS.find? (fun e => e.1 = "1M")).isSome = false ∧
    market_ws [] "BTCUSDT" "1M" =
      ([(("BTCUSDT", "1m"), hubInit "BTCUSDT" "1m")],
        WsDecision.attached (hubInit "BTCUSDT" "1m")) := by
  constructor
  · rfl
  · rfl

/-- C7 (amended): for every incoming subscription whose lowercased
timeframe key is not in the fixed timeframe table, the connection is
closed with code 1008, no Hub is looked up, and the registry is
unchanged. -/
theorem timeframe_rejection (reg : Registry) (symbol timeframe : String)
    (h : (TIMEFRAME_SECONDS.find?
      (fun e => e.1 = pyLower timeframe)).isSome = false) :
    market_ws reg symbol timeframe =
      (reg, WsDecision.rejected 1008 "Unsupported timeframe") := by
  simp only [market_ws, h, Bool.false_eq_true, if_false]

/-- Witness for the amended C7 at the unsupported timeframe `"2m"`. -/
theorem timeframe_rejection_witness :
    market_ws [] "BTCUSDT" "2m" =
      ([], WsDecision.rejected 1008 "Unsupported timeframe") :=
  timeframe_rejection [] "BTCUSDT" "2m" rfl

theorem lookupHub_symbol (reg : Registry) (hwf : RegistryWF reg)
    (key : String × String) (hub : MarketStreamHub)
    (hfind : lookupHub reg key = some hub) : hub.symbol = key.1 := by
  rw [lookupHub] at hfind
  obtain ⟨e, he, rfl⟩ := Option.map_eq_some.mp hfind
  have hmem := List.mem_of_find?_eq_some he
  have hpred := List.find?_some he
  rw [decide_eq_true_iff] at hpred
  rw [hwf e hmem, hpred]

/-- C9: Registry symbol normalization.  Hub lookup is case-insensitive in
the symbol: for any case-variant `s'` of `s` the same lookup result is
returned, a repeated lookup after the first returns the same hub and
leaves the registry unchanged, and the returned hub's `symbol` field is
the uppercased symbol (for every registry whose entries were stored by
`get_market_hub`, captured by `RegistryWF`). -/
theorem registry_symbol_normalization (reg : Registry)
    (hwf : RegistryWF reg) (s s' tf : String)
    (hcase : pyUpper s' = pyUpper s) :
    (get_market_hub reg s tf).2 = (get_market_hub reg s' tf).2 ∧
    (get_market_hub (get_market_hub reg s tf).1 s' tf).1 =
      (get_market_hub reg s tf).1 ∧
    (get_market_hub (get_market_hub reg s tf).1 s' tf).2 =
      (get_market_hub reg s tf).2 ∧
    (get_market_hub reg s tf).2.symbol = pyUpper s := by
  cases hfind : lookupHub reg (pyUpper s, tf) with
  | some hub =>
    have hsym : hub.symbol = pyUpper s := lookupHub_symbol reg hwf _ hub hfind
    simp only [get_market_hub, hcase, hfind]
    exact ⟨trivial, trivial, trivial, hsym⟩
  | none =>
    have hid : hubInit s' tf = hubInit s tf := by
      simp [hubInit, hcase]
    have hfind2 : lookupHub
        (reg ++ [((pyUpper s, tf), hubInit s tf)]) (pyUpper s, tf) =
        some (hubInit s tf) := by
      rw [lookupHub] at hfind ⊢
      rw [List.find?_append]
      cases hfe : List.find? (fun e => decide (e.1 = (pyUpper s, tf))) reg with
      | some e =>
        rw [hfe] at hfind
        simp at hfind
      | none =>
        simp
    simp only [get_market_hub, hcase, hfind, hfind2, hid]
    exact ⟨trivial, trivial, trivial, rfl⟩

/-- Witness for C9: first lookup of `bTcUsDt` against the lookup of its
case-variant `BTCUSDT` in the empty registry. -/
theorem registry_symbol_normalization_witness :
    (get_market_hub [] "bTcUsDt" "1m").2 =
      (get_market_hub [] "BTCUSDT" "1m").2 ∧
    (get_market_hub (get_market_hub [] "bTcUsDt" "1m").1 "BTCUSDT" "1m").1 =
      (get_market_hub [] "bTcUsDt" "1m").1 ∧
    (get_market_hub (get_market_hub [] "bTcUsDt" "1m").1 "BTCUSDT" "1m").2 =
      (get_market_hub [] "bTcUsDt" "1m").2 ∧
    (get_market_hub [] "bTcUsDt" "1m").2.symbol = pyUpper "bTcUsDt" :=
  registry_symbol_normalization [] (fun e he => by cases he)
    "bTcUsDt" "BTCUSDT" "1m" rfl

theorem isValid_flat_buildCandleUpdate (symbol timeframe : String)
    (tsRender : Int → String) (server_time : String) (s : Int) (carry : ℚ)
    (hcarry : 0 < carry) (hts : (tsRender s).isEmpty = false)
    (hsv : server_time.isEmpty = false) (event_time_ms : Int) :
    isValidCandlePayload (buildCandleUpdate symbol timeframe tsRender
      server_time (flatCandle s carry) event_time_ms) = true := by
  simp only [isValidCandlePayload, buildCandleUpdate, flatCandle,
    PValue.isBool, PValue.isNumber, PValue.toRat, PValue.isNonemptyStr,
    Bool.or_self, Bool.and_self, Bool.not_true, Bool.false_eq_true,
    if_false, hts, hsv]
  have h1 : ¬ (carry ≤ 0 ∨ carry ≤ 0 ∨ carry ≤ 0 ∨ carry ≤ 0) := by
    push_neg
    exact ⟨hcarry, hcarry, hcarry, hcarry⟩
  have h2 : ¬ ((0 : ℚ) < 0) := lt_irrefl 0
  have h3 : ¬ (carry < max carry carry ∨ carry > min carry carry ∨
      carry < carry) := by
    push_neg
    exact ⟨le_of_eq (max_self carry), le_of_eq (min_self carry).symm,
      le_rfl⟩
  simp [h1, h2, h3, hts, hsv, hcarry]

/-- C10: Synthetic candles always validate.  Every payload built by
`_build_candle_update` from a Gap Filler candle of a previous candle with
positive close passes `_is_valid_candle_payload` (given the non-empty
timestamp renderings the standard library produces), so no synthetic gap
candle is dropped by validation: `broadcast` appends it to the ring
buffer and attempts delivery to every client. -/
theorem synthetic_candles_validate (bucket_seconds : Int)
    (hbs : 0 < bucket_seconds) (prev : CandleState) (N : Int)
    (hclose : 0 < prev.close) (symbol timeframe server_time : String)
    (tsRender : Int → String) (hts : ∀ s, (tsRender s).isEmpty = false)
    (hsv : server_time.isEmpty = false) :
    ∀ gc ∈ buildMissingCandles bucket_seconds hbs prev N,
      isValidCandlePayload (buildCandleUpdate symbol timeframe tsRender
        server_time gc (gc.bucket_start * 1000)) = true ∧
      ∀ (sendOk : ℕ → Bool) (st : HubState),
        (broadcast sendOk st (buildCandleUpdate symbol timeframe tsRender
          server_time gc (gc.bucket_start * 1000))).attempted =
          st.clients ∧
        (broadcast sendOk st (buildCandleUpdate symbol timeframe tsRender
          server_time gc (gc.bucket_start * 1000))).state.recent_payloads =
          pushRecent st.recent_payloads (buildCandleUpdate symbol timeframe
            tsRender server_time gc (gc.bucket_start * 1000)) := by
  intro gc hgc
  rw [buildMissingCandles, mem_buildMissingAux] at hgc
  obtain ⟨j, rfl, hj⟩ := hgc
  have hvalid := isValid_flat_buildCandleUpdate symbol timeframe tsRender
    server_time
    (prev.bucket_start + bucket_seconds + (j : Int) * bucket_seconds)
    prev.close hclose
    (hts (prev.bucket_start + bucket_seconds + (j : Int) * bucket_seconds))
    hsv
    ((flatCandle (prev.bucket_start + bucket_seconds +
      (j : Int) * bucket_seconds) prev.close).bucket_start * 1000)
  refine ⟨hvalid, ?_⟩
  intro sendOk st
  constructor
  · simp [broadcast, hvalid]
  · simp [broadcast, hvalid]

/-- Witness for C10: the synthetic candle for bucket `60` of a gap from
bucket `0` to bucket `180` with previous close `5`. -/
theorem synthetic_candles_validate_witness :
    isValidCandlePayload (buildCandleUpdate "BTCUSDT" "1m"
      (fun _ => "ts") "srv" (flatCandle 60 5)
      ((flatCandle 60 5).bucket_start * 1000)) = true ∧
    ∀ (sendOk : ℕ → Bool) (st : HubState),
      (broadcast sendOk st (buildCandleUpdate "BTCUSDT" "1m"
        (fun _ => "ts") "srv" (flatCandle 60 5)
        ((flatCandle 60 5).bucket_start * 1000))).attempted =
        st.clients ∧
      (broadcast sendOk st (buildCandleUpdate "BTCUSDT" "1m"
        (fun _ => "ts") "srv" (flatCandle 60 5)
        ((flatCandle 60 5).bucket_start * 1000))).state.recent_payloads =
        pushRecent st.recent_payloads (buildCandleUpdate "BTCUSDT" "1m"
          (fun _ => "ts") "srv" (flatCandle 60 5)
          ((flatCandle 60 5).bucket_start * 1000)) :=
  synthetic_candles_validate 60 (by decide) ⟨0, 5, 5, 5, 5, 1⟩ 180
    (by norm_num) "BTCUSDT" "1m" "srv" (fun _ => "ts")
    (fun _ => (by decide : ("ts" : String).isEmpty = false)) (by decide)
    (flatCandle 60 5)
    (by
      rw [buildMissingCandles, mem_buildMissingAux]
      exact ⟨0, by decide, by decide⟩)

end MarketWS
